import Mathlib

/-!
Shallow embedding of `src/parse.go` (package main of StevenRispoli/adsGO-csv-parser).

The program is a two-stage pipeline: `reader` (lines 117-158) unzips the
archive, finds the entry `IPV6-COUNTRY-REGION-CITY.CSV`, and streams CSV rows
(as `[]string`) over a channel to `parser` (lines 160-185), which builds
`ip2locRec` values.  `ip2locInit` (lines 55-87) coordinates: it receives
either the first error over the unbuffered `chErr` channel or the `done`
signal, and on error discards the accumulated records.

We embed the data path functionally: a row is a `List String`, the stream of
rows delivered to the parser is a `List (List String)`, and the parser loop
is structural recursion over that list.  Go slice indexing `v[i]` is modelled
with `v[i]?`; an out-of-range access is the explicit `panic` outcome (in Go it
is an index-out-of-range run-time panic that kills the parser goroutine and
with it the process, since nothing recovers it).  `math/big.Int` is `Int`
(arbitrary precision, signed).  Cancellation and the failure-signalling path
are modelled separately (`parserLoopC`, `signalFailure`) with the cancel
token's observed state made an explicit schedule.
-/

namespace AdsGo

/-- The country whitelist, `supportedCountries` of src/parse.go lines 17-22
(a Go map used only for membership tests). -/
def supportedCountries : List String := ["AU", "CA", "GB", "US"]

/-- The record type `ip2locRec` of src/parse.go lines 28-33.  `ToIP` is a
`big.Int`, i.e. an arbitrary-precision *signed* integer, embedded as `Int`. -/
structure ip2locRec where
  toIP : Int
  countryCode : String
  region : String
  city : String
deriving Repr, DecidableEq

/-- Decimal digit run, helper for `setString10`: `some` of the value when the
character list is non-empty and all ASCII digits, else `none`. -/
def decDigits (cs : List Char) : Option Nat :=
  if cs = [] then none
  else if cs.all (fun c => c.isDigit) then
    some (cs.foldl (fun n c => 10 * n + (c.toNat - 48)) 0)
  else none

/-- Go `(*big.Int).SetString(s, 10)` as used at src/parse.go line 166:
the whole string must be an optional sign (`+` or `-`) followed by one or
more decimal digits; anything else fails (`ok = false`, here `none`).
Note base 10 accepts a leading minus sign: negative values parse fine. -/
def setString10 (s : String) : Option Int :=
  match s.data with
  | '+' :: rest => (decDigits rest).map (fun n => (n : Int))
  | '-' :: rest => (decDigits rest).map (fun n => -(n : Int))
  | cs => (decDigits cs).map (fun n => (n : Int))

/-- Outcome of the parser body for one row (src/parse.go lines 165-182). -/
inductive RowResult where
  /-- field 2 was the sentinel `"-"`: `continue`, nothing appended. -/
  | skip
  /-- a record was appended. -/
  | record (r : ip2locRec)
  /-- the `SetString` call failed: `abort <- err; close(cancel); return`. -/
  | parseErr
  /-- an index-out-of-range panic on `v[1]`, `v[2]`, `v[4]` or `v[5]`. -/
  | panic
deriving Repr, DecidableEq

/-- One iteration of the parser loop body, src/parse.go lines 165-182, on row
`v`.  Field accesses happen in source order: `v[1]` (line 166), `v[2]`
(line 171), and — only when the country code is whitelisted — `v[4]` and
`v[5]` (lines 179-180).  Each access panics if the row is too short. -/
def parseRow (v : List String) : RowResult :=
  match v[1]? with
  | none => .panic
  | some f1 =>
    match setString10 f1 with
    | none => .parseErr
    | some n =>
      match v[2]? with
      | none => .panic
      | some f2 =>
        if f2 = "-" then .skip
        else if f2 ∈ supportedCountries then
          match v[4]? with
          | none => .panic
          | some f4 =>
            match v[5]? with
            | none => .panic
            | some f5 => .record ⟨n, f2, f4, f5⟩
        else .record ⟨n, f2, "", ""⟩

/-- How a full run of the parser loop over a delivered row list ends. -/
inductive RunResult where
  /-- the loop drained the closed queue: `close(done)` at line 184. -/
  | ok (recs : List ip2locRec)
  /-- abort with the offending row; `recs` is what had been appended so far
  (it lives in memory but is never handed to the caller). -/
  | parseError (row : List String) (recs : List ip2locRec)
  /-- run-time panic: the process dies. -/
  | panicked (recs : List ip2locRec)
deriving Repr, DecidableEq

/-- The parser loop `for v := range in` of src/parse.go lines 161-184, in the
runs where the cancel token is never set (no reader failure): `cancelled()`
at line 162 is then always false, so the loop is a pure fold over the rows.
`acc` is the `*ipRecs` slice; appending is `acc ++ [r]` (line 182). -/
def parserRun : List (List String) → List ip2locRec → RunResult
  | [], acc => .ok acc
  | v :: rest, acc =>
    match parseRow v with
    | .skip => parserRun rest acc
    | .record r => parserRun rest (acc ++ [r])
    | .parseErr => .parseError v acc
    | .panic => .panicked acc

/-- What the HTTP caller of `ip2locInit` observes (src/parse.go lines 71-85):
on the first error from `chErr` an `appError` is returned and the accumulated
`recs` are discarded; on `done` the records are encoded; a panic in the
parser goroutine kills the process. -/
inductive CallerResult where
  | success (recs : List ip2locRec)
  /-- an `appError` wrapping the `ParseError` that carries the offending row
  (src/parse.go line 167); no records accompany it. -/
  | failure (row : List String)
  | crash
deriving Repr, DecidableEq

/-- The `select` of src/parse.go lines 71-75 plus the success path: maps the
parser's terminal state to what the caller receives. -/
def coordinatorResult : RunResult → CallerResult
  | .ok recs => .success recs
  | .parseError row _ => .failure row
  | .panicked _ => .crash

/-- A named entry of the zip container, already decompressed into its CSV
rows.  Models the error-free reader inputs: the container opened and every
entry's content reads cleanly. -/
structure ZipEntry where
  name : String
  rows : List (List String)

/-- The fixed target filename, src/parse.go line 128. -/
def targetEntry : String := "IPV6-COUNTRY-REGION-CITY.CSV"

/-- The reader's row stream (src/parse.go lines 127-156) on an error-free,
uncancelled run: every entry whose name equals the target contributes its
rows, in order (the loop does not stop after the first match); all other
entries are ignored. -/
def readerRows : List ZipEntry → List (List String)
  | [] => []
  | e :: rest =>
    if e.name = targetEntry then e.rows ++ readerRows rest
    else readerRows rest

/-- Whole pipeline on an error-free archive: reader feeds parser, coordinator
reports. -/
def runPipeline (entries : List ZipEntry) : CallerResult :=
  coordinatorResult (parserRun (readerRows entries) [])

/-- A row is structurally well-formed for the parser when field 2 exists
(hence field 1 exists) and, if its country code is a non-sentinel whitelisted
one, fields 4 and 5 exist too — exactly the indices the executed branch of
src/parse.go lines 165-181 reads. -/
def wellFormed (v : List String) : Bool :=
  match v[2]? with
  | none => false
  | some c =>
    if c = "-" then true
    else if c ∈ supportedCountries then decide (5 < v.length)
    else true

/-- Field 1 exists and parses under `SetString(·, 10)`. -/
def numOk (v : List String) : Bool :=
  match v[1]? with
  | none => false
  | some s => (setString10 s).isSome

/-- Field 1 exists but fails to parse: the claim hypothesis "the row's
upper-bound field is not a valid integer". -/
def badNum (v : List String) : Bool :=
  match v[1]? with
  | none => false
  | some s => (setString10 s).isNone

/-- The record a single well-formed row contributes: `none` for the sentinel,
otherwise the record built at src/parse.go lines 174-181.  Mirrors `parseRow`
case for case. -/
def recOf (v : List String) : Option ip2locRec :=
  match v[1]? with
  | none => none
  | some f1 =>
    match setString10 f1 with
    | none => none
    | some n =>
      match v[2]? with
      | none => none
      | some f2 =>
        if f2 = "-" then none
        else if f2 ∈ supportedCountries then
          match v[4]? with
          | none => none
          | some f4 =>
            match v[5]? with
            | none => none
            | some f5 => some ⟨n, f2, f4, f5⟩
        else some ⟨n, f2, "", ""⟩

example : parseRow ["0", "281470681743360", "US", "x", "California", "Los Angeles"] =
    .record ⟨281470681743360, "US", "California", "Los Angeles"⟩ := by decide

example : parseRow ["0", "281470681743360", "FR", "x", "Paris-region", "Paris"] =
    .record ⟨281470681743360, "FR", "", ""⟩ := by decide

example : parseRow ["0", "281470681743360", "-", "x", "x", "y"] = .skip := by decide

example : parseRow ["0", "not-a-number", "US", "x", "x", "y"] = .parseErr := by decide

example : parseRow ["a"] = .panic := by decide

example : setString10 "-5" = some (-5) := by decide

/-- Terminal state of the parser loop when the cancel token can be set. -/
inductive ParserOutcome where
  /-- the `for v := range in` loop ended because the queue was closed, so
  `close(done)` at src/parse.go line 184 runs: the Completion Signal fires. -/
  | completed (recs : List ip2locRec)
  /-- `cancelled()` returned true at line 162: `return` at line 163, the
  Completion Signal does not fire. -/
  | cancelled (recs : List ip2locRec)
  /-- parse failure at line 166: abort, the Completion Signal does not fire. -/
  | aborted (row : List String) (recs : List ip2locRec)
  /-- index-out-of-range panic. -/
  | panicked (recs : List ip2locRec)
deriving Repr, DecidableEq

/-- The parser loop of src/parse.go lines 161-184 with the cancel token's
observed state made explicit: `cancelAt i` is what `cancelled()` returns at
iteration `i` (the check happens after row `i` has been received, line 162).
Crucially, when the loop ends because the queue is closed, the code reaches
`close(done)` (line 184) without consulting the token again. -/
def parserLoopC (cancelAt : Nat → Bool) :
    List (List String) → Nat → List ip2locRec → ParserOutcome
  | [], _, acc => .completed acc
  | v :: rest, i, acc =>
    if cancelAt i then .cancelled acc
    else
      match parseRow v with
      | .skip => parserLoopC cancelAt rest (i + 1) acc
      | .record r => parserLoopC cancelAt rest (i + 1) (acc ++ [r])
      | .parseErr => .aborted v acc
      | .panic => .panicked acc

/-- Whether `close(done)` ran, i.e. the Completion Signal fired. -/
def firesDone : ParserOutcome → Bool
  | .completed _ => true
  | _ => false

/-- Shared coordination state seen by a stage that signals failure.
`errTaken` — the coordinator's single `select` (src/parse.go lines 71-75) has
already consumed an error from the unbuffered `chErr`; `cancelClosed` — the
`cancel` channel has been closed. -/
structure FailState where
  errTaken : Bool
  cancelClosed : Bool
deriving Repr, DecidableEq

/-- Result of one stage executing the failure path
`abort <- err; close(cancel); return` (src/parse.go lines 122-124, 131-133,
150-152 in `reader`; 167-169 in `parser`). -/
inductive SignalResult where
  /-- the error send was received and `close(cancel)` succeeded. -/
  | completedSig (s : FailState)
  /-- the send on the unbuffered `chErr` is never received (the coordinator
  already returned after taking the first error): the stage blocks forever
  inside `abort <- err` and never reaches its `close(cancel)`. -/
  | blockedForever (s : FailState)
  /-- `close(cancel)` on an already-closed channel: a Go run-time panic. -/
  | panickedSig
deriving Repr, DecidableEq

/-- The failure-signalling path of either stage.  `chErr` is unbuffered and
the coordinator performs exactly one receive, so the send succeeds only while
no error has been taken yet; only then does control reach `close(cancel)`,
which panics if the channel is already closed. -/
def signalFailure (s : FailState) : SignalResult :=
  if s.errTaken then .blockedForever s
  else if s.cancelClosed then .panickedSig
  else .completedSig ⟨true, true⟩

/-- Go `close` on the `cancel` channel (a bare `close(cancel)`): closing an
open channel marks it closed; closing an already-closed channel is a run-time
panic (`none`).  The set operation is therefore not idempotent. -/
def closeChan : Bool → Option Bool
  | false => some true
  | true => none

/-- The coordination states that actually arise in a run: initially nothing
is taken or closed; after one successful failure signal both flags are set. -/
def reachableFailState (s : FailState) : Prop :=
  s = ⟨false, false⟩ ∨ s = ⟨true, true⟩

/-- On a structurally well-formed row whose numeric field parses, the parser
body either skips (exactly when field 2 is the sentinel) or appends the
record described by `recOf`. -/
theorem parseRow_spec (v : List String) (hw : wellFormed v = true)
    (hn : numOk v = true) :
    (v[2]? = some "-" ∧ recOf v = none ∧ parseRow v = .skip) ∨
    (∃ r, recOf v = some r ∧ parseRow v = .record r ∧ v[2]? ≠ some "-") := by
  cases h2 : v[2]? with
  | none => simp [wellFormed, h2] at hw
  | some c =>
    simp only [wellFormed, h2] at hw
    cases h1 : v[1]? with
    | none => simp [numOk, h1] at hn
    | some s =>
      cases hs : setString10 s with
      | none => simp [numOk, h1, hs] at hn
      | some n =>
        by_cases hc : c = "-"
        · left
          subst hc
          exact ⟨rfl, by simp [recOf, h1, h2, hs], by simp [parseRow, h1, h2, hs]⟩
        · right
          by_cases hmem : c ∈ supportedCountries
          · rw [if_neg hc, if_pos hmem] at hw
            have hlen : 5 < v.length := by simpa using hw
            have h4 : v[4]? = some (v.get ⟨4, by omega⟩) :=
              List.getElem?_eq_getElem (by omega)
            have h5 : v[5]? = some (v.get ⟨5, by omega⟩) :=
              List.getElem?_eq_getElem (by omega)
            refine ⟨⟨n, c, v.get ⟨4, by omega⟩, v.get ⟨5, by omega⟩⟩, ?_, ?_, ?_⟩
            · simp [recOf, h1, h2, hs, h4, h5, hc, hmem]
            · simp [parseRow, h1, h2, hs, h4, h5, hc, hmem]
            · simp [hc]
          · refine ⟨⟨n, c, "", ""⟩, ?_, ?_, ?_⟩
            · simp [recOf, h1, h2, hs, hc, hmem]
            · simp [parseRow, h1, h2, hs, hc, hmem]
            · simp [hc]

/-- A record produced by `recOf` carries the row's field 2 verbatim as its
country code, and that field is never the sentinel. -/
theorem recOf_countryCode (v : List String) (r : ip2locRec)
    (h : recOf v = some r) : v[2]? = some r.countryCode ∧ r.countryCode ≠ "-" := by
  cases h1 : v[1]? <;> simp only [recOf, h1] at h
  · exact absurd h (by simp)
  case some s =>
    cases hs : setString10 s <;> simp only [hs] at h
    · exact absurd h (by simp)
    case some n =>
      cases h2 : v[2]? <;> simp only [h2] at h
      · exact absurd h (by simp)
      case some c =>
        by_cases hc : c = "-"
        · rw [if_pos hc] at h; exact absurd h (by simp)
        · rw [if_neg hc] at h
          by_cases hmem : c ∈ supportedCountries
          · rw [if_pos hmem] at h
            cases h4 : v[4]? <;> simp only [h4] at h
            · exact absurd h (by simp)
            cases h5 : v[5]? <;> simp only [h5] at h
            · exact absurd h (by simp)
            · obtain rfl := Option.some_inj.mp h
              exact ⟨rfl, hc⟩
          · rw [if_neg hmem] at h
            obtain rfl := Option.some_inj.mp h
            exact ⟨rfl, hc⟩

/-- On well-formed rows whose numeric fields parse, the parser loop finishes
normally and the output is exactly `filterMap recOf` of the input, appended
to whatever was accumulated before. -/
theorem parserRun_eq_filterMap (rows : List (List String)) :
    ∀ acc, (∀ v ∈ rows, wellFormed v = true ∧ numOk v = true) →
      parserRun rows acc = .ok (acc ++ rows.filterMap recOf) := by
  induction rows with
  | nil => intro acc _; simp [parserRun]
  | cons v rest ih =>
    intro acc h
    obtain ⟨hw, hn⟩ := h v (List.mem_cons_self v rest)
    have hrest := fun u hu => h u (List.mem_cons_of_mem _ hu)
    rcases parseRow_spec v hw hn with ⟨h2, hnone, hskip⟩ | ⟨r, hsome, hrec, h2⟩
    · simp only [parserRun, hskip, List.filterMap_cons_none hnone]
      exact ih acc hrest
    · simp only [parserRun, hrec, List.filterMap_cons_some hsome]
      simpa [List.append_assoc] using ih (acc ++ [r]) hrest

/-- The retained records are in bijection, position by position, with the
non-sentinel rows: a sentinel row contributes nothing, any other well-formed
row contributes exactly one record. -/
theorem filterMap_recOf_length (rows : List (List String))
    (h : ∀ v ∈ rows, wellFormed v = true ∧ numOk v = true) :
    (rows.filterMap recOf).length =
      (rows.filter (fun v => !(v[2]? == some "-"))).length := by
  induction rows with
  | nil => rfl
  | cons v rest ih =>
    obtain ⟨hw, hn⟩ := h v (List.mem_cons_self v rest)
    have hrest := fun u hu => h u (List.mem_cons_of_mem _ hu)
    rcases parseRow_spec v hw hn with ⟨h2, hnone, _⟩ | ⟨r, hsome, _, h2⟩
    · rw [List.filterMap_cons_none hnone, List.filter_cons]
      simp [h2, ih hrest]
    · rw [List.filterMap_cons_some hsome, List.filter_cons]
      simp [h2, ih hrest]

/-- Everything `parseRow` guarantees about an appended record: its `toIP` is
the parse of field 1, its country code is field 2 verbatim and is not the
sentinel, and region/city come from fields 4 and 5 exactly when the country
code is whitelisted, else stay empty. -/
theorem parseRow_record_fields (v : List String) (r : ip2locRec)
    (h : parseRow v = .record r) :
    (∃ s, v[1]? = some s ∧ setString10 s = some r.toIP) ∧
    v[2]? = some r.countryCode ∧ r.countryCode ≠ "-" ∧
    (r.countryCode ∈ supportedCountries →
      v[4]? = some r.region ∧ v[5]? = some r.city) ∧
    (r.countryCode ∉ supportedCountries → r.region = "" ∧ r.city = "") := by
  cases h1 : v[1]? <;> simp only [parseRow, h1] at h
  · exact absurd h (by simp)
  case some s =>
    cases hs : setString10 s <;> simp only [hs] at h
    · exact absurd h (by simp)
    case some n =>
      cases h2 : v[2]? <;> simp only [h2] at h
      · exact absurd h (by simp)
      case some c =>
        by_cases hc : c = "-"
        · rw [if_pos hc] at h; exact absurd h (by simp)
        · rw [if_neg hc] at h
          by_cases hmem : c ∈ supportedCountries
          · rw [if_pos hmem] at h
            cases h4 : v[4]? <;> simp only [h4] at h
            · exact absurd h (by simp)
            next f4 =>
              cases h5 : v[5]? <;> simp only [h5] at h
              · exact absurd h (by simp)
              next f5 =>
                injection h with h
                subst h
                exact ⟨⟨s, rfl, hs⟩, rfl, hc, fun _ => ⟨rfl, rfl⟩,
                  fun hx => absurd hmem hx⟩
          · rw [if_neg hmem] at h
            injection h with h
            subst h
            exact ⟨⟨s, rfl, hs⟩, rfl, hc, fun hx => absurd hx hmem,
              fun _ => ⟨rfl, rfl⟩⟩

/-- A row whose numeric field exists but fails `SetString` makes the parser
body abort. -/
theorem parseRow_of_badNum (v : List String) (hb : badNum v = true) :
    parseRow v = .parseErr := by
  cases h1 : v[1]? <;> simp only [badNum, h1] at hb
  case none => exact absurd hb (by simp)
  case some s =>
    cases hs : setString10 s
    · simp [parseRow, h1, hs]
    · simp [hs] at hb

/-- A well-formed row has at least three fields. -/
theorem wellFormed_length (v : List String) (hw : wellFormed v = true) :
    2 < v.length := by
  cases h2 : v[2]? <;> simp only [wellFormed, h2] at hw
  · exact absurd hw (by simp)
  · obtain ⟨hlt, -⟩ := List.getElem?_eq_some.mp h2
    exact hlt

/-- On a row with a field at index 1, "not bad" means the field parses. -/
theorem numOk_of_not_badNum (v : List String) (hlen : 1 < v.length)
    (hb : badNum v = false) : numOk v = true := by
  have hs1 : v[1]? = some v[1] := List.getElem?_eq_getElem hlen
  cases hs : setString10 v[1]
  · have : badNum v = true := by simp [badNum, hs1, hs]
    rw [this] at hb
    cases hb
  · simp [numOk, hs1, hs]

/-- Over structurally well-formed rows, the existence of a row whose numeric
field fails to parse makes the whole loop end in `parseError`, at the first
such row; no `ok` result is possible. -/
theorem parserRun_abort (rows : List (List String)) :
    ∀ acc, (∀ v ∈ rows, wellFormed v = true) →
      (∃ v ∈ rows, badNum v = true) →
      ∃ w ∈ rows, badNum w = true ∧
        ∃ partialRecs, parserRun rows acc = .parseError w partialRecs := by
  induction rows with
  | nil => intro acc _ hbad; simp at hbad
  | cons v rest ih =>
    intro acc hwf hbad
    have hw := hwf v (List.mem_cons_self v rest)
    by_cases hb : badNum v = true
    · refine ⟨v, List.mem_cons_self v rest, hb, acc, ?_⟩
      simp only [parserRun, parseRow_of_badNum v hb]
    · have hb0 : badNum v = false := by simpa using hb
      have hn : numOk v = true :=
        numOk_of_not_badNum v (by have := wellFormed_length v hw; omega) hb0
      have hbadRest : ∃ u ∈ rest, badNum u = true := by
        obtain ⟨u, hu, hub⟩ := hbad
        rcases List.mem_cons.mp hu with rfl | hu2
        · exact absurd hub hb
        · exact ⟨u, hu2, hub⟩
      have hwfRest := fun u hu => hwf u (List.mem_cons_of_mem _ hu)
      rcases parseRow_spec v hw hn with ⟨_, _, hskip⟩ | ⟨r, _, hrec, _⟩
      · obtain ⟨w, hwm, hwb, p, hp⟩ := ih acc hwfRest hbadRest
        refine ⟨w, List.mem_cons_of_mem _ hwm, hwb, p, ?_⟩
        simp only [parserRun, hskip]
        exact hp
      · obtain ⟨w, hwm, hwb, p, hp⟩ := ih (acc ++ [r]) hwfRest hbadRest
        refine ⟨w, List.mem_cons_of_mem _ hwm, hwb, p, ?_⟩
        simp only [parserRun, hrec]
        exact hp

/-- An archive with no entry of the target name yields no rows at all. -/
theorem readerRows_nil_of_no_target (entries : List ZipEntry) :
    (∀ e ∈ entries, e.name ≠ targetEntry) → readerRows entries = [] := by
  induction entries with
  | nil => intro _; rfl
  | cons e rest ih =>
    intro h
    simp only [readerRows, if_neg (h e (List.mem_cons_self e rest))]
    exact ih fun u hu => h u (List.mem_cons_of_mem _ hu)

/-- C1: for every well-formed input row sequence, the parser completes with
exactly one record per row whose field 2 is not the sentinel `"-"` and no
record for any sentinel row, so the output length equals the number of
non-sentinel rows and no output record carries the sentinel country code. -/
theorem output_matches_nonsentinel_rows (rows : List (List String))
    (h : ∀ v ∈ rows, wellFormed v = true ∧ numOk v = true) :
    ∃ recs, parserRun rows [] = .ok recs ∧
      recs.length = (rows.filter (fun v => !(v[2]? == some "-"))).length ∧
      ∀ r ∈ recs, r.countryCode ≠ "-" := by
  refine ⟨rows.filterMap recOf, ?_, ?_, ?_⟩
  · simpa using parserRun_eq_filterMap rows [] h
  · exact filterMap_recOf_length rows h
  · intro r hr
    obtain ⟨v, _, hsome⟩ := List.mem_filterMap.mp hr
    exact (recOf_countryCode v r hsome).2

theorem output_matches_nonsentinel_rows_witness :
    ∃ recs, parserRun [["0", "10", "US", "x", "Cal", "LA"],
        ["0", "20", "-"], ["0", "30", "FR"]] [] = .ok recs ∧
      recs.length = ([["0", "10", "US", "x", "Cal", "LA"],
        ["0", "20", "-"], ["0", "30", "FR"]].filter
          (fun v => !(v[2]? == some "-"))).length ∧
      ∀ r ∈ recs, r.countryCode ≠ "-" :=
  output_matches_nonsentinel_rows _ (by decide)

/-- C2: if any row's field 1 fails to parse as an integer — sentinel rows
included, since the numeric parse at line 166 precedes the sentinel check at
line 171 — the run ends in a `ParseError` carrying such an offending row, and
the caller receives that failure with no records attached. -/
theorem bad_upperBound_fails_run (rows : List (List String))
    (hwf : ∀ v ∈ rows, wellFormed v = true)
    (hbad : ∃ v ∈ rows, badNum v = true) :
    ∃ w ∈ rows, badNum w = true ∧
      coordinatorResult (parserRun rows []) = .failure w := by
  obtain ⟨w, hwm, hwb, p, hp⟩ := parserRun_abort rows [] hwf hbad
  exact ⟨w, hwm, hwb, by rw [hp]; rfl⟩

theorem bad_upperBound_fails_run_witness :
    ∃ w ∈ [["0", "5", "-"], ["0", "xx", "-"]], badNum w = true ∧
      coordinatorResult (parserRun [["0", "5", "-"], ["0", "xx", "-"]] []) =
        .failure w :=
  bad_upperBound_fails_run _ (by decide) ⟨["0", "xx", "-"], by decide, by decide⟩

/-- C3: for every retained row (one the parser turns into a record), region
and city are both empty when the country code is outside the whitelist, and
equal the row's fields at indices 4 and 5 when it is in the whitelist. -/
theorem region_city_whitelist_policy (v : List String) (r : ip2locRec)
    (h : parseRow v = .record r) :
    (r.countryCode ∈ supportedCountries →
      v[4]? = some r.region ∧ v[5]? = some r.city) ∧
    (r.countryCode ∉ supportedCountries → r.region = "" ∧ r.city = "") :=
  ⟨(parseRow_record_fields v r h).2.2.2.1, (parseRow_record_fields v r h).2.2.2.2⟩

theorem region_city_whitelist_policy_witness :
    (((⟨7, "US", "R", "C"⟩ : ip2locRec).countryCode ∈ supportedCountries →
      (["0", "7", "US", "x", "R", "C"] : List String)[4]? =
        some (⟨7, "US", "R", "C"⟩ : ip2locRec).region ∧
      (["0", "7", "US", "x", "R", "C"] : List String)[5]? =
        some (⟨7, "US", "R", "C"⟩ : ip2locRec).city) ∧
    ((⟨7, "US", "R", "C"⟩ : ip2locRec).countryCode ∉ supportedCountries →
      (⟨7, "US", "R", "C"⟩ : ip2locRec).region = "" ∧
      (⟨7, "US", "R", "C"⟩ : ip2locRec).city = "")) :=
  region_city_whitelist_policy ["0", "7", "US", "x", "R", "C"] _ (by decide)

/-- C4: on a well-formed row sequence processed to completion the output is
`rows.filterMap recOf`: the records appear in the order of their source rows
with the skipped sentinel rows removed and nothing reordered (`filterMap` is
order-preserving by construction). -/
theorem output_preserves_row_order (rows : List (List String))
    (h : ∀ v ∈ rows, wellFormed v = true ∧ numOk v = true) :
    parserRun rows [] = .ok (rows.filterMap recOf) := by
  simpa using parserRun_eq_filterMap rows [] h

theorem output_preserves_row_order_witness :
    parserRun [["0", "1", "AU", "x", "Q", "S"], ["0", "2", "-"],
      ["0", "3", "DE"]] [] =
      .ok ([["0", "1", "AU", "x", "Q", "S"], ["0", "2", "-"],
        ["0", "3", "DE"]].filterMap recOf) :=
  output_preserves_row_order _ (by decide)

/-- C5: if the container opens but holds no entry named
IPV6-COUNTRY-REGION-CITY.CSV, the run completes successfully with an empty
output collection: the reader emits nothing, the parser drains the empty
closed queue and fires the Completion Signal. -/
theorem missing_entry_yields_empty_success (entries : List ZipEntry)
    (h : ∀ e ∈ entries, e.name ≠ targetEntry) :
    runPipeline entries = .success [] := by
  rw [runPipeline, readerRows_nil_of_no_target entries h]
  rfl

theorem missing_entry_yields_empty_success_witness :
    runPipeline [⟨"OTHER.CSV", [["0", "1", "US"]]⟩, ⟨"README.TXT", []⟩] =
      .success [] :=
  missing_entry_yields_empty_success _ (by decide)

/-- C6 counterexample: the claim says a row whose upper-bound field does not
parse as a *non-negative* integer aborts the run, but `SetString(s, 10)`
accepts a leading minus sign: the row with field 1 equal to `"-5"` is
retained with a negative `toIP` and the run completes normally. -/
theorem negative_upperBound_retained :
    parserRun [["0", "-5", "US", "x", "Region", "City"]] [] =
      .ok [⟨-5, "US", "Region", "City"⟩] ∧
    (⟨-5, "US", "Region", "City"⟩ : ip2locRec).toIP < 0 := by decide

/-- C6 amended: every retained record's `toIP` is the integer (possibly
negative, since base-10 `SetString` accepts a sign) parsed from the row's
field 1, and a row whose field 1 fails to parse as an integer aborts the
whole run rather than being skipped. -/
theorem upperBound_parses_as_integer :
    (∀ v r, parseRow v = .record r →
      ∃ s, v[1]? = some s ∧ setString10 s = some r.toIP) ∧
    (∀ v rest acc s, v[1]? = some s → setString10 s = none →
      parserRun (v :: rest) acc = .parseError v acc) := by
  constructor
  · intro v r h
    exact (parseRow_record_fields v r h).1
  · intro v rest acc s h1 hs
    have hpe : parseRow v = .parseErr := by simp [parseRow, h1, hs]
    simp only [parserRun, hpe]

theorem upperBound_parses_as_integer_witness :
    (∃ s, (["0", "7", "FR"] : List String)[1]? = some s ∧
      setString10 s = some (⟨7, "FR", "", ""⟩ : ip2locRec).toIP) ∧
    parserRun [["0", "zz", "US"]] [] = .parseError ["0", "zz", "US"] [] :=
  ⟨upperBound_parses_as_integer.1 ["0", "7", "FR"] _ (by decide),
   upperBound_parses_as_integer.2 ["0", "zz", "US"] [] [] "zz" (by decide) (by decide)⟩

/-- C7 code bug: a row with fewer fields than the executed branch reads is
not turned into a reported malformed-input failure — the parser indexes the
slice unconditionally, so the run dies with an index-out-of-range panic.
The three inputs hit the accesses at index 1, index 2, and index 4
respectively. -/
theorem short_row_panics :
    parserRun [["a"]] [] = .panicked [] ∧
    parserRun [["0", "5"]] [] = .panicked [] ∧
    parserRun [["0", "5", "US", "x"]] [] = .panicked [] := by decide

/-- C10: the parser does not validate the country-code format — for any
string `c` other than the exact sentinel `"-"` in field 2 (empty strings and
non-two-letter strings included), a record is appended whose `countryCode`
is `c` verbatim, with region and city populated from fields 4 and 5 exactly
when `c` is one of AU, CA, GB, US (the whole of `supportedCountries`) and
left empty otherwise. -/
theorem countryCode_unvalidated_verbatim (v : List String) (c : String)
    (h2 : v[2]? = some c) (hc : c ≠ "-") (hn : numOk v = true)
    (hlen : c ∈ supportedCountries → 5 < v.length) :
    ∃ r, parseRow v = .record r ∧ r.countryCode = c ∧
      (c ∈ supportedCountries → v[4]? = some r.region ∧ v[5]? = some r.city) ∧
      (c ∉ supportedCountries → r.region = "" ∧ r.city = "") := by
  have hw : wellFormed v = true := by
    simp only [wellFormed, h2]
    by_cases hmem : c ∈ supportedCountries
    · simp [hc, hmem, hlen hmem]
    · simp [hc, hmem]
  rcases parseRow_spec v hw hn with ⟨h2s, _, _⟩ | ⟨r, _, hrec, _⟩
  · rw [h2] at h2s
    exact absurd (Option.some_inj.mp h2s) hc
  · obtain ⟨_, hcc, _, hwl, hnwl⟩ := parseRow_record_fields v r hrec
    rw [h2] at hcc
    have hceq : r.countryCode = c := (Option.some_inj.mp hcc).symm
    subst hceq
    exact ⟨r, hrec, rfl, hwl, hnwl⟩

theorem countryCode_unvalidated_verbatim_witness :
    ∃ r, parseRow ["0", "9", "not-a-code", "x", "R", "C"] = .record r ∧
      r.countryCode = "not-a-code" ∧
      ("not-a-code" ∈ supportedCountries →
        (["0", "9", "not-a-code", "x", "R", "C"] : List String)[4]? = some r.region ∧
        (["0", "9", "not-a-code", "x", "R", "C"] : List String)[5]? = some r.city) ∧
      ("not-a-code" ∉ supportedCountries → r.region = "" ∧ r.city = "") :=
  countryCode_unvalidated_verbatim ["0", "9", "not-a-code", "x", "R", "C"]
    "not-a-code" (by decide) (by decide) (by decide) (by decide)

/-- The parser loop reaches `close(done)` exactly when every delivered row
was taken with the token observed unset at that moment and no row failed;
the schedule entry for positions past the last delivered row is never
consulted. -/
theorem parserLoopC_completed_iff (cancelAt : Nat → Bool) :
    ∀ (rows : List (List String)) (i : Nat) (acc : List ip2locRec),
      (∃ recs, parserLoopC cancelAt rows i acc = .completed recs) ↔
        ((∀ j, j < rows.length → cancelAt (i + j) = false) ∧
         (∀ v ∈ rows, parseRow v ≠ .parseErr ∧ parseRow v ≠ .panic)) := by
  intro rows
  induction rows with
  | nil => intro i acc; simp [parserLoopC]
  | cons v rest ih =>
    intro i acc
    constructor
    · rintro ⟨recs, hrecs⟩
      simp only [parserLoopC] at hrecs
      split at hrecs
      next hci => exact absurd hrecs (by simp)
      next hci =>
        have hci0 : cancelAt i = false := by simpa using hci
        split at hrecs
        next hp =>
          obtain ⟨hcanR, herrR⟩ := (ih (i + 1) acc).mp ⟨recs, hrecs⟩
          refine ⟨fun j hj => ?_, fun u hu => ?_⟩
          · cases j with
            | zero => simpa using hci0
            | succ j =>
              have e : i + (j + 1) = (i + 1) + j := by omega
              rw [e]
              refine hcanR j ?_
              simp only [List.length_cons] at hj
              omega
          · rcases List.mem_cons.mp hu with rfl | hu2
            · simp [hp]
            · exact herrR u hu2
        next r hp =>
          obtain ⟨hcanR, herrR⟩ := (ih (i + 1) (acc ++ [r])).mp ⟨recs, hrecs⟩
          refine ⟨fun j hj => ?_, fun u hu => ?_⟩
          · cases j with
            | zero => simpa using hci0
            | succ j =>
              have e : i + (j + 1) = (i + 1) + j := by omega
              rw [e]
              refine hcanR j ?_
              simp only [List.length_cons] at hj
              omega
          · rcases List.mem_cons.mp hu with rfl | hu2
            · simp [hp]
            · exact herrR u hu2
        next hp => exact absurd hrecs (by simp)
        next hp => exact absurd hrecs (by simp)
    · rintro ⟨hcan, herr⟩
      have hci0 : cancelAt i = false := by
        simpa using hcan 0 (by simp)
      have hcan1 : ∀ j, j < rest.length → cancelAt ((i + 1) + j) = false := by
        intro j hj
        have e : (i + 1) + j = i + (j + 1) := by omega
        rw [e]
        refine hcan (j + 1) ?_
        simp only [List.length_cons]
        omega
      have herr1 : ∀ u ∈ rest, parseRow u ≠ .parseErr ∧ parseRow u ≠ .panic :=
        fun u hu => herr u (List.mem_cons_of_mem _ hu)
      obtain ⟨hpe, hpp⟩ := herr v (List.mem_cons_self v rest)
      cases hp : parseRow v with
      | skip =>
        obtain ⟨recs, hrecs⟩ := (ih (i + 1) acc).mpr ⟨hcan1, herr1⟩
        exact ⟨recs, by simpa [parserLoopC, hci0, hp] using hrecs⟩
      | record r =>
        obtain ⟨recs, hrecs⟩ := (ih (i + 1) (acc ++ [r])).mpr ⟨hcan1, herr1⟩
        exact ⟨recs, by simpa [parserLoopC, hci0, hp] using hrecs⟩
      | parseErr => exact absurd hp hpe
      | panic => exact absurd hp hpp

/-- C8 counterexample: the claim that the parser never fires the Completion
Signal while the Cancellation Token is set is false.  With the token set at
every instant (e.g. the reader failed at zip-open: it signalled, closed
`cancel` and, via `defer close(out)`, closed the empty queue), the parser's
`for v := range in` loop ends at once and `close(done)` still runs, because
line 184 is reached without consulting the token after queue closure. -/
theorem completion_fires_despite_cancellation :
    ¬ (∀ (rows : List (List String)) (cancelAt : Nat → Bool),
        (∀ j, cancelAt j = true) →
        firesDone (parserLoopC cancelAt rows 0 []) = false) := by
  intro hclaim
  have h := hclaim [] (fun _ => true) (fun _ => rfl)
  simp [parserLoopC, firesDone] at h

/-- C8 amended: the parser fires the Completion Signal exactly once, namely
exactly when every delivered row was taken with the token observed unset at
its row boundary and no row aborted or panicked; if the token is observed set
when a row is taken, the parser stops without firing it.  (A token set after
the last row is delivered does not prevent the signal — the original claim's
"whenever the token is set" fails only in that case.) -/
theorem completion_iff_drained_without_observed_cancel (cancelAt : Nat → Bool)
    (rows : List (List String)) :
    ((∃ recs, parserLoopC cancelAt rows 0 [] = .completed recs) ↔
      ((∀ j, j < rows.length → cancelAt j = false) ∧
       (∀ v ∈ rows, parseRow v ≠ .parseErr ∧ parseRow v ≠ .panic))) ∧
    (∀ v rest acc, cancelAt 0 = true →
      parserLoopC cancelAt (v :: rest) 0 acc = .cancelled acc) := by
  constructor
  · simpa using parserLoopC_completed_iff cancelAt rows 0 []
  · intro v rest acc hc
    simp [parserLoopC, hc]

theorem completion_iff_drained_witness :
    ∃ recs, parserLoopC (fun _ => false)
      [["0", "3", "GB", "x", "Region", "City"]] 0 [] = .completed recs :=
  (completion_iff_drained_without_observed_cancel (fun _ => false)
    [["0", "3", "GB", "x", "Region", "City"]]).1.mpr
    ⟨fun _ _ => rfl, by decide⟩

/-- C9 counterexample: the claim that a second failure signal never blocks a
stage forever is false, and the token-set operation is not an idempotent
no-op.  In a run where both stages fail, the first `abort <- err` is consumed
by the coordinator's single `select` and that stage closes `cancel`
(`completedSig`, both flags set); the other stage's send on the unbuffered
`chErr` is then never received, so it blocks forever inside `abort <- err`.
Moreover the raw set operation, `close(cancel)`, panics when the channel is
already closed instead of being a no-op. -/
theorem second_failure_signal_blocks_forever :
    signalFailure ⟨false, false⟩ = .completedSig ⟨true, true⟩ ∧
    signalFailure ⟨true, true⟩ = .blockedForever ⟨true, true⟩ ∧
    closeChan true = none := by decide

/-- C9 amended: the second failure signal never crashes and never deadlocks
the coordinator (which already returned), but it does block the signalling
stage forever: once the coordinator has taken the first error, any stage
running the failure path blocks in its unbuffered send and never reaches
`close(cancel)`, which is why the non-idempotent close (a second close would
panic) is never executed twice — no reachable coordination state makes
`signalFailure` panic, and a successful signal leads only to reachable
states. -/
theorem second_failure_no_crash :
    (∀ s : FailState, s.errTaken = true → signalFailure s = .blockedForever s) ∧
    (∀ s : FailState, reachableFailState s → signalFailure s ≠ .panickedSig) ∧
    (∀ s s' : FailState, reachableFailState s →
      signalFailure s = .completedSig s' → reachableFailState s') := by
  refine ⟨?_, ?_, ?_⟩
  · intro s h
    simp [signalFailure, h]
  · intro s hs
    obtain rfl | rfl := hs <;> decide
  · intro s s' hs h
    obtain rfl | rfl := hs
    · simp only [signalFailure] at h
      injection h with h
      exact Or.inr h.symm
    · simp [signalFailure] at h

theorem second_failure_no_crash_witness :
    signalFailure ⟨true, false⟩ = .blockedForever ⟨true, false⟩ ∧
    signalFailure ⟨false, false⟩ ≠ .panickedSig :=
  ⟨second_failure_no_crash.1 ⟨true, false⟩ rfl,
   second_failure_no_crash.2.1 ⟨false, false⟩ (Or.inl rfl)⟩

end AdsGo
